import Mathlib

/-!
Verification development for the Alumni-Portal job-scraper scripts.

Shallow embedding of the pure computational core of
`scrape_actuarial_jobs.py` (namespace `AJ`), `scripts/python/job_scraper.py`
(namespace `JS`) and `scrape_company_boards.py` (namespace `CB`).

Modelling conventions:
* Python strings are Lean `String` or `List Char`; Python regex character
  classes are modelled over their ASCII extent (plus the characters that
  actually occur in the sources, such as the rupee sign); `str.lower`,
  `str.upper` and `str.title` are modelled by their ASCII case maps.
* Python `re.search` (leftmost match, greedy backtracking alternation and
  quantifiers) is modelled by an executable CPS backtracking matcher; each
  pattern of the source is hand-compiled into the combinators below with
  the same alternative order and greediness.
* Python numbers parsed by `float(...)` and scaled by `int(x * 10**k)` or
  `int(x * 0.8)` are modelled exactly, as a decimal mantissa/exponent pair
  with floor division; IEEE-754 rounding of CPython floats (at most one
  unit in the last place on such inputs) is not modelled.
* Python `int` results of the salary parsers are nonnegative and are
  modelled as `Nat`.
* `hashlib.md5(...).hexdigest()` is modelled by a full MD5 implementation
  over UTF-8 bytes represented as `Nat`.
* `sorted(..., key=...)` (a stable sort under a total preorder) is modelled
  by `List.insertionSort`, which is also stable, with the lexicographic
  code-point order of Python string/tuple comparison.
-/

/-! ## Generic character and string helpers -/

/-- ASCII decimal digit, the model of regex `\d`. -/
def isDigitA (c : Char) : Bool := '0' ≤ c && c ≤ '9'

/-- Digit or comma, the model of the regex class `[\d,]`. -/
def isDigitComma (c : Char) : Bool := isDigitA c || c = ','

/-- Whitespace as matched by regex `\s` and stripped by `str.strip`
(ASCII extent: space, tab, newline, vertical tab, form feed, carriage
return). -/
def pySpace (c : Char) : Bool :=
  c = ' ' || c = '\t' || c = '\n' || c = '\x0b' || c = '\x0c' || c = '\r'

/-- Word character, the model of regex `\w` (ASCII extent). -/
def isWordChar (c : Char) : Bool := c.isAlphanum || c = '_'

/-- ASCII alphanumeric, the class kept by `re.sub(r"[^a-zA-Z0-9]", "", .)`. -/
def isAlnumA (c : Char) : Bool :=
  ('a' ≤ c && c ≤ 'z') || ('A' ≤ c && c ≤ 'Z') || ('0' ≤ c && c ≤ '9')

/-- Model of `str.lower` (ASCII case map). -/
def lowerStr (s : String) : String := String.mk (s.data.map Char.toLower)

/-- Case-sensitive literal prefix test. -/
def litStarts : List Char → List Char → Bool
  | [], _ => true
  | _ :: _, [] => false
  | p :: ps, s :: ss => p = s && litStarts ps ss

/-- Case-insensitive literal prefix test (for patterns compiled with
`re.IGNORECASE`). -/
def ciStarts : List Char → List Char → Bool
  | [], _ => true
  | _ :: _, [] => false
  | p :: ps, s :: ss => p.toLower = s.toLower && ciStarts ps ss

/-- Python substring containment `pat in s`. -/
def isSubstr (pat s : List Char) : Bool :=
  (List.range (s.length + 1)).any fun i => litStarts pat (s.drop i)

/-! ## A CPS backtracking matcher

Each combinator consumes a prefix of the input and calls the continuation
on the rest; on failure of the continuation it backtracks.  `tryTake`
tries prefix lengths from `n` down to `lo` (longest first), which is the
backtracking order of a greedy regex quantifier over a character class. -/

/-- Try `k` on the split of `s` after `m` characters, for `m = n, n-1, ..., lo`,
returning the first success. -/
def tryTake (k : List Char → List Char → Option α) (s : List Char)
    (lo : Nat) : Nat → Option α
  | 0 => if lo = 0 then k [] s else none
  | Nat.succ n =>
    if Nat.succ n < lo then none
    else
      match k (s.take (Nat.succ n)) (s.drop (Nat.succ n)) with
      | some r => some r
      | none => tryTake k s lo n

/-- Greedy `p*` over a character class (regex `C*`), not capturing. -/
def starC (p : Char → Bool) (s : List Char) (k : List Char → Option α) :
    Option α :=
  tryTake (fun _ r => k r) s 0 (s.takeWhile p).length

/-- Greedy `p+` over a character class (regex `C+`), capturing the match. -/
def plusCap (p : Char → Bool) (s : List Char)
    (k : List Char → List Char → Option α) : Option α :=
  tryTake k s 1 (s.takeWhile p).length

/-- Greedy `p+` over a character class, not capturing. -/
def plusC (p : Char → Bool) (s : List Char) (k : List Char → Option α) :
    Option α :=
  plusCap p s fun _ r => k r

/-- Single literal character. -/
def litC (c : Char) (s : List Char) (k : List Char → Option α) : Option α :=
  match s with
  | x :: r => if x = c then k r else none
  | [] => none

/-- Required alternation over case-insensitive literals, tried in order,
capturing the consumed text. -/
def altCap (alts : List (List Char)) (s : List Char)
    (k : List Char → List Char → Option α) : Option α :=
  match alts with
  | [] => none
  | a :: rest =>
    (if ciStarts a s then k (s.take a.length) (s.drop a.length) else none)
      <|> altCap rest s k

/-- Optional alternation over case-insensitive literals (regex `(...)?`),
greedy: alternatives first, the empty match last. -/
def optAltCap (alts : List (List Char)) (s : List Char)
    (k : Option (List Char) → List Char → Option α) : Option α :=
  altCap alts s (fun cap r => k (some cap) r) <|> k none s

/-- Capture group `(\d+(?:\.\d+)?)`: greedy digits with an optional greedy
fractional part; the continuation receives the captured text. -/
def numGroup (s : List Char) (k : List Char → List Char → Option α) :
    Option α :=
  tryTake
    (fun ds r1 =>
      (match r1 with
       | '.' :: r2 =>
         tryTake (fun fs r3 => k (ds ++ '.' :: fs) r3) r2 1
           (r2.takeWhile isDigitA).length
       | _ => none)
        <|> k ds r1)
    s 1 (s.takeWhile isDigitA).length

/-- Model of `re.search`: try the pattern at every start position, leftmost
first. -/
def searchAt (f : List Char → Option α) : List Char → Option α
  | [] => f []
  | c :: cs => f (c :: cs) <|> searchAt f cs

/-- Word-boundary position: start of string or previous character not a
word character. -/
def boundaryOk (s : List Char) (i : Nat) : Bool :=
  i = 0 || !isWordChar (s.getD (i - 1) ' ')

/-- Model of a word-bounded search — `re.search` of `pat` wrapped in
regex word boundaries — for a pattern made of word characters: some
occurrence of `pat` flanked by word boundaries. -/
def wbSearch (pat s : List Char) : Bool :=
  (List.range (s.length + 1)).any fun i =>
    boundaryOk s i && litStarts pat (s.drop i) &&
      (i + pat.length = s.length || !isWordChar (s.getD (i + pat.length) ' '))

/-! ## Exact decimal numbers

`decVal g` parses the text captured by `(\d+(?:\.\d+)?)` into a pair
`(m, k)` denoting the exact value `m / 10 ^ k`, the model of Python
`float(g)` on such literals. -/

/-- Value of a list of decimal digits. -/
def natOfDigits (ds : List Char) : Nat :=
  ds.foldl (fun n c => 10 * n + (c.toNat - 48)) 0

/-- Mantissa and decimal-exponent of a captured numeric literal. -/
def decVal (g : List Char) : Nat × Nat :=
  let intPart := g.takeWhile (fun c => !(c = '.'))
  let fracPart := (g.dropWhile (fun c => !(c = '.'))).drop 1
  (natOfDigits (intPart ++ fracPart), fracPart.length)

/-- Floor of `(m / 10 ^ k) * scale`, the model of `int(x * scale)` for a
nonnegative exact decimal `x` (CPython evaluates this through binary
floats; for the in-range decimal literals of the sources the difference is
at most one unit, and is not modelled). -/
def scaleFloor (v : Nat × Nat) (scale : Nat) : Nat := v.1 * scale / 10 ^ v.2

/-! ## Lexicographic code-point comparison

Python compares strings (and tuples of strings, as in
`sorted(jobs, key=lambda j: (j.source, j.company, j.title))`)
lexicographically by code point. -/

/-- Three-way comparison of naturals. -/
def cmpN (a b : Nat) : Ordering :=
  if a < b then .lt else if a = b then .eq else .gt

/-- Lexicographic three-way comparison of code-point lists. -/
def lexCmpN : List Nat → List Nat → Ordering
  | [], [] => .eq
  | [], _ :: _ => .lt
  | _ :: _, [] => .gt
  | a :: as, b :: bs =>
    match cmpN a b with
    | .eq => lexCmpN as bs
    | o => o

/-- Lexicographic three-way comparison of strings by code point. -/
def lexCmp (a b : String) : Ordering :=
  lexCmpN (a.data.map Char.toNat) (b.data.map Char.toNat)

/-- Non-strict string comparison `a <= b` in code-point order. -/
def strLeB (a b : String) : Bool :=
  match lexCmp a b with
  | .gt => false
  | _ => true

/-- Python `<=` on a string triple, lexicographic by component. -/
def tupLeB : String × String × String → String × String × String → Bool
  | (a1, a2, a3), (b1, b2, b3) =>
    match lexCmp a1 b1 with
    | .lt => true
    | .gt => false
    | .eq =>
      match lexCmp a2 b2 with
      | .lt => true
      | .gt => false
      | .eq => strLeB a3 b3

/-- The proposition form of `strLeB`, used as the sort relation of
`sorted(found)` in the skill/certification extractors. -/
def strLe (a b : String) : Prop := strLeB a b = true

instance : DecidableRel strLe := fun a b => by
  unfold strLe; infer_instance

/-! ## MD5 (model of `hashlib.md5(...).hexdigest()`)

Standard MD5 over the UTF-8 encoding of the input, with 32-bit words as
`Nat` reduced mod `2 ^ 32`. -/

/-- UTF-8 encoding of a code-point sequence as byte values. -/
def utf8Bytes : List Char → List Nat
  | [] => []
  | c :: cs =>
    let n := c.toNat
    (if n < 0x80 then [n]
     else if n < 0x800 then [0xc0 + n / 0x40, 0x80 + n % 0x40]
     else if n < 0x10000 then
       [0xe0 + n / 0x1000, 0x80 + n / 0x40 % 0x40, 0x80 + n % 0x40]
     else
       [0xf0 + n / 0x40000, 0x80 + n / 0x1000 % 0x40,
        0x80 + n / 0x40 % 0x40, 0x80 + n % 0x40]) ++ utf8Bytes cs

/-- Combine `n` low bits of two words with a boolean function (structural,
so that the kernel can evaluate digests). -/
def bitZip (f : Bool → Bool → Bool) : Nat → Nat → Nat → Nat
  | 0, _, _ => 0
  | n + 1, a, b =>
    (if f (a % 2 = 1) (b % 2 = 1) then 1 else 0) + 2 * bitZip f n (a / 2) (b / 2)

/-- Bitwise AND on 32-bit words. -/
def and32 (a b : Nat) : Nat := bitZip (fun x y => x && y) 32 a b

/-- Bitwise OR on 32-bit words. -/
def or32 (a b : Nat) : Nat := bitZip (fun x y => x || y) 32 a b

/-- Bitwise XOR on 32-bit words. -/
def xor32 (a b : Nat) : Nat := bitZip (fun x y => x != y) 32 a b

/-- Bitwise complement on 32-bit words. -/
def not32 (x : Nat) : Nat := 2 ^ 32 - 1 - x % 2 ^ 32

/-- Rotate a 32-bit word left by `s` bits. -/
def rotl32 (x s : Nat) : Nat := (x * 2 ^ s + x / 2 ^ (32 - s)) % 2 ^ 32

/-- The MD5 sine-derived round constants. -/
def md5K : List Nat :=
  [0xd76aa478, 0xe8c7b756, 0x242070db, 0xc1bdceee,
   0xf57c0faf, 0x4787c62a, 0xa8304613, 0xfd469501,
   0x698098d8, 0x8b44f7af, 0xffff5bb1, 0x895cd7be,
   0x6b901122, 0xfd987193, 0xa679438e, 0x49b40821,
   0xf61e2562, 0xc040b340, 0x265e5a51, 0xe9b6c7aa,
   0xd62f105d, 0x02441453, 0xd8a1e681, 0xe7d3fbc8,
   0x21e1cde6, 0xc33707d6, 0xf4d50d87, 0x455a14ed,
   0xa9e3e905, 0xfcefa3f8, 0x676f02d9, 0x8d2a4c8a,
   0xfffa3942, 0x8771f681, 0x6d9d6122, 0xfde5380c,
   0xa4beea44, 0x4bdecfa9, 0xf6bb4b60, 0xbebfbc70,
   0x289b7ec6, 0xeaa127fa, 0xd4ef3085, 0x04881d05,
   0xd9d4d039, 0xe6db99e5, 0x1fa27cf8, 0xc4ac5665,
   0xf4292244, 0x432aff97, 0xab9423a7, 0xfc93a039,
   0x655b59c3, 0x8f0ccc92, 0xffeff47d, 0x85845dd1,
   0x6fa87e4f, 0xfe2ce6e0, 0xa3014314, 0x4e0811a1,
   0xf7537e82, 0xbd3af235, 0x2ad7d2bb, 0xeb86d391]

/-- The MD5 per-round left-rotation amounts. -/
def md5S : List Nat :=
  [7, 12, 17, 22, 7, 12, 17, 22, 7, 12, 17, 22, 7, 12, 17, 22,
   5, 9, 14, 20, 5, 9, 14, 20, 5, 9, 14, 20, 5, 9, 14, 20,
   4, 11, 16, 23, 4, 11, 16, 23, 4, 11, 16, 23, 4, 11, 16, 23,
   6, 10, 15, 21, 6, 10, 15, 21, 6, 10, 15, 21, 6, 10, 15, 21]

/-- Split a byte list into the 16 little-endian 32-bit words of one chunk. -/
def md5Words : List Nat → List Nat
  | b0 :: b1 :: b2 :: b3 :: rest =>
    (b0 + 256 * b1 + 65536 * b2 + 16777216 * b3) :: md5Words rest
  | _ => []

/-- One MD5 round on the state `(a, b, c, d)` with message words `M`. -/
def md5Round (M : List Nat) (st : Nat × Nat × Nat × Nat) (i : Nat) :
    Nat × Nat × Nat × Nat :=
  let a := st.1
  let b := st.2.1
  let c := st.2.2.1
  let d := st.2.2.2
  let fg : Nat × Nat :=
    if i < 16 then (or32 (and32 b c) (and32 (not32 b) d), i)
    else if i < 32 then (or32 (and32 d b) (and32 (not32 d) c), (5 * i + 1) % 16)
    else if i < 48 then (xor32 (xor32 b c) d, (3 * i + 5) % 16)
    else (xor32 c (or32 b (not32 d)), 7 * i % 16)
  let f := (fg.1 + a + md5K.getD i 0 + M.getD fg.2 0) % 2 ^ 32
  (d, (b + rotl32 f (md5S.getD i 0)) % 2 ^ 32, b, c)

/-- Process one 64-byte chunk, adding the round result to the state. -/
def md5Chunk (st : Nat × Nat × Nat × Nat) (chunk : List Nat) :
    Nat × Nat × Nat × Nat :=
  let M := md5Words chunk
  let r := (List.range 64).foldl (md5Round M) st
  ((st.1 + r.1) % 2 ^ 32, (st.2.1 + r.2.1) % 2 ^ 32,
   (st.2.2.1 + r.2.2.1) % 2 ^ 32, (st.2.2.2 + r.2.2.2) % 2 ^ 32)

/-- Split a padded message into 64-byte chunks. -/
def chunksAux : Nat → List Nat → List (List Nat)
  | 0, _ => []
  | _, [] => []
  | fuel + 1, a :: t => (a :: t).take 64 :: chunksAux fuel (t.drop 63)

/-- Split a padded message into 64-byte chunks (fuelled structural
recursion; the fuel `l.length` is ample since each step consumes 64
bytes). -/
def chunks64 (l : List Nat) : List (List Nat) := chunksAux l.length l

/-- MD5 padding: `0x80`, zeros to 56 mod 64, then the 64-bit little-endian
bit length. -/
def md5Pad (msg : List Nat) : List Nat :=
  let L := msg.length
  let zeros := (64 + 56 - (L + 1) % 64) % 64
  let bitLen := 8 * L % 2 ^ 64
  msg ++ 0x80 :: List.replicate zeros 0 ++
    (List.range 8).map (fun i => bitLen / 2 ^ (8 * i) % 256)

/-- Lowercase hexadecimal digit. -/
def hexDigit (n : Nat) : Char :=
  if n < 10 then Char.ofNat (48 + n) else Char.ofNat (87 + n)

/-- Two-digit lowercase hex of a byte. -/
def byteHex (b : Nat) : List Char := [hexDigit (b / 16), hexDigit (b % 16)]

/-- Little-endian hex of a 32-bit word (four bytes, low byte first). -/
def wordHexLE (w : Nat) : List Char :=
  byteHex (w % 256) ++ byteHex (w / 256 % 256) ++ byteHex (w / 65536 % 256) ++
    byteHex (w / 16777216 % 256)

/-- Model of `hashlib.md5(s.encode()).hexdigest()`. -/
def md5hex (s : String) : String :=
  let padded := md5Pad (utf8Bytes s.data)
  let st := (chunks64 padded).foldl md5Chunk
    (0x67452301, 0xefcdab89, 0x98badcfe, 0x10325476)
  String.mk (wordHexLE st.1 ++ wordHexLE st.2.1 ++ wordHexLE st.2.2.1 ++
    wordHexLE st.2.2.2)

/-! ## `scrape_actuarial_jobs.py` -/

namespace AJ

/-- The `Salary` dataclass (`min`/`max` optional, `currency` defaults to
`"USD"`); the integer amounts produced by `parse_salary` are nonnegative. -/
structure Salary where
  min : Option Nat := none
  max : Option Nat := none
  currency : String := "USD"
deriving DecidableEq

/-- The `Job` dataclass. -/
structure Job where
  id : String
  title : String
  company : String
  location : String
  description : String
  salary : Option Salary
  job_type : Option String
  experience_level : Option String
  skills : List String
  certifications : List String
  posted_date : Option String
  url : String
  apply_url : Option String
  source : String
  featured : Bool := false
deriving DecidableEq

/-- `COMMON_SKILLS` of `scrape_actuarial_jobs.py`. -/
def COMMON_SKILLS : List String :=
  ["Excel", "SQL", "Python", "R", "SAS", "Tableau", "Power BI", "VBA"]

/-- `CERTS` of `scrape_actuarial_jobs.py`. -/
def CERTS : List String := ["FSA", "ASA", "EA", "MAAA", "CERA", "CAS"]

/-- `normalize_whitespace(text)`: `re.sub(r"\s+", " ", text or "").strip()`.
The `or ""` accepts `None` (and the empty string), modelled by an
`Option String` argument.  `collapseWs` replaces each maximal whitespace
run by a single space. -/
def collapseWs : List Char → List Char
  | [] => []
  | [c] => [if pySpace c then ' ' else c]
  | a :: b :: rest =>
    if pySpace a && pySpace b then collapseWs (b :: rest)
    else (if pySpace a then ' ' else a) :: collapseWs (b :: rest)

/-- Python `str.strip()`: drop whitespace from both ends. -/
def pyStrip (l : List Char) : List Char :=
  ((l.dropWhile pySpace).reverse.dropWhile pySpace).reverse

/-- `normalize_whitespace` of `scrape_actuarial_jobs.py`. -/
def normalize_whitespace (text : Option String) : String :=
  String.mk (pyStrip (collapseWs (text.getD "").data))

/-- `gen_id(title, company, location, url)`: strip non-alphanumerics from
`"title|company|location|url"` and truncate to 64 characters. -/
def gen_id (title company location url : String) : String :=
  String.mk
    (((title ++ "|" ++ company ++ "|" ++ location ++ "|" ++ url).data.filter
      isAlnumA).take 64)

/-- The optional currency marker `(\$|USD\s*)?` of the `parse_salary`
pattern (IGNORECASE): `$`, then `USD` followed by spaces, then empty. -/
def usdOpt (s : List Char) (k : List Char → Option α) : Option α :=
  (match s with
   | '$' :: r => k r
   | _ => none)
    <|> (if ciStarts "USD".data s then starC pySpace (s.drop 3) k else none)
    <|> k s

/-- The separator `(?:-|to)` of the `parse_salary` pattern (IGNORECASE). -/
def dashOrTo (s : List Char) (k : List Char → Option α) : Option α :=
  (match s with
   | '-' :: r => k r
   | _ => none)
    <|> (if ciStarts "to".data s then k (s.drop 2) else none)

/-- One anchored attempt of the `parse_salary` pattern
`(\$|USD\s*)?([\d,]+)\s*(?:-|to)\s*(\$|USD\s*)?([\d,]+)`, capturing
groups 2 and 4. -/
def psAt (s : List Char) : Option (List Char × List Char) :=
  usdOpt s fun r1 =>
  plusCap isDigitComma r1 fun g2 r2 =>
  starC pySpace r2 fun r3 =>
  dashOrTo r3 fun r4 =>
  starC pySpace r4 fun r5 =>
  usdOpt r5 fun r6 =>
  plusCap isDigitComma r6 fun g4 _ => some (g2, g4)

/-- `parse_salary(text)`: `None` on falsy input; search the range pattern;
`int(group.replace(",", ""))` on each bound (a `ValueError` on a
comma-only group is caught and yields `None`); currency `"USD"`. -/
def parse_salary (text : String) : Option Salary :=
  if text = "" then none
  else
    match searchAt psAt text.data with
    | none => none
    | some (g2, g4) =>
      let d2 := g2.filter isDigitA
      let d4 := g4.filter isDigitA
      if d2 = [] || d4 = [] then none
      else some
        { min := some (natOfDigits d2), max := some (natOfDigits d4),
          currency := "USD" }

/-- Model of `re.search(r"(\bP1|\bP2|...)\s*years", t) is not None` for the
year patterns of `infer_experience`: some alternative at a word-boundary
start, followed by spaces and the literal `years`. -/
def yearsSearch (pats : List (List Char)) (s : List Char) : Bool :=
  (List.range (s.length + 1)).any fun i =>
    pats.any fun p =>
      boundaryOk s i && litStarts p (s.drop i) &&
        litStarts "years".data ((s.drop (i + p.length)).dropWhile pySpace)

/-- `infer_experience(text)` of `scrape_actuarial_jobs.py`: executive,
senior, mid, entry tiers in that order, else `None`. -/
def infer_experience (text : String) : Option String :=
  let t := (lowerStr text).data
  if ["executive", "manager", "lead", "director"].any
      (fun x => isSubstr x.data t) then some "executive"
  else if isSubstr "senior".data t ||
      yearsSearch ["10+".data, "8+".data, "7+".data] t then some "senior"
  else if yearsSearch ["3-5".data, "4-6".data, "3+".data, "5+".data] t ||
      isSubstr "mid".data t then some "mid"
  else if isSubstr "entry".data t ||
      yearsSearch ["0-2".data, "1-2".data, "0-1".data] t ||
      isSubstr "junior".data t then some "entry"
  else none

/-- `extract_skills(text)` of `scrape_actuarial_jobs.py`: the skills whose
lowercase form occurs in the lowercased text, as a sorted list. -/
def extract_skills (text : String) : List String :=
  List.insertionSort strLe
    (COMMON_SKILLS.filter fun s =>
      isSubstr (lowerStr s).data (lowerStr text).data)

/-- `extract_certs(text)` of `scrape_actuarial_jobs.py`: the certification
codes with a case-sensitive word-boundary occurrence, as a sorted list. -/
def extract_certs (text : String) : List String :=
  List.insertionSort strLe (CERTS.filter fun c => wbSearch c.data text.data)

/-- `matches_filters(job, keywords, locations, remote_only)`. -/
def matches_filters (job : Job) (keywords locations : List String)
    (remote_only : Bool) : Bool :=
  let text :=
    (lowerStr (job.title ++ " " ++ job.company ++ " " ++ job.description)).data
  if !keywords.isEmpty &&
      !(keywords.any fun k => isSubstr (lowerStr k).data text) then false
  else if !locations.isEmpty &&
      !(locations.any fun l =>
        isSubstr (lowerStr l).data (lowerStr job.location).data) then false
  else if remote_only &&
      !(isSubstr "remote".data (lowerStr job.location).data) then false
  else true

/-- The per-listing body of `scrape_soa` after selector extraction: given
the text of the title/company/location selectors, the joined URL and the
normalized card text, build the `Job` and emit it only if `title` and
`company` are truthy and `matches_filters` passes.  (Fetch, selector
lookup and debug output are the callers of this logic.) -/
def soaProcessItem (keywords locations : List String) (remote_only : Bool)
    (title company location job_url desc : String) : Option Job :=
  if title = "" || company = "" then none
  else
    let job : Job :=
      { id := gen_id title company location job_url
        title := title
        company := company
        location := location
        description := desc
        salary := parse_salary desc
        job_type := none
        experience_level := infer_experience desc
        skills := extract_skills desc
        certifications := extract_certs desc
        posted_date := none
        url := job_url
        apply_url := some job_url
        source := "SOA"
        featured := true }
    if matches_filters job keywords locations remote_only then some job
    else none

/-- `dedupe` seen-set loop: skip a job whose `id` was already seen. -/
def dedupeAux (seen : List String) : List Job → List Job
  | [] => []
  | j :: rest =>
    if j.id ∈ seen then dedupeAux seen rest
    else j :: dedupeAux (j.id :: seen) rest

/-- `dedupe(jobs)`: single pass, first-seen-by-`id` wins. -/
def dedupe (jobs : List Job) : List Job := dedupeAux [] jobs

/-- The sort key of `sort_jobs`: `(j.source, j.company, j.title)`. -/
def jobKey (j : Job) : String × String × String := (j.source, j.company, j.title)

/-- The sort relation of `sort_jobs` (lexicographic tuple comparison of
Python `sorted`). -/
def jobLe (a b : Job) : Prop := tupLeB (jobKey a) (jobKey b) = true

instance : DecidableRel jobLe := fun a b => by
  unfold jobLe; infer_instance

/-- `sort_jobs(jobs)`: stable sort by `(source, company, title)`. -/
def sort_jobs (jobs : List Job) : List Job := List.insertionSort jobLe jobs

/-- The merge step of `run_scrape`: given the output list of each source
(in source order, a failed source contributing `[]`), concatenate,
deduplicate, sort. -/
def run_scrape_merge (results : List (List Job)) : List Job :=
  sort_jobs (dedupe results.flatten)

end AJ

/-! ## `scripts/python/job_scraper.py` (class `ActuarialJobScraper`) -/

namespace JS

/-- The salary dict produced by `extract_salary`:
`{"min": ..., "max": ..., "currency": "INR"}` with nonnegative integers. -/
structure SalaryINR where
  min : Nat
  max : Nat
  currency : String
deriving DecidableEq

/-- Characters kept by `re.sub(r"[^\w\s\-.,/$()&₹]", "", text)` in
`clean_text`. -/
def allowedChar (c : Char) : Bool :=
  isWordChar c || pySpace c || c = '-' || c = '.' || c = ',' || c = '/' ||
    c = '$' || c = '(' || c = ')' || c = '&' || c = '₹'

/-- `clean_text(text)`: empty for falsy input; collapse whitespace and
strip; then delete every character outside `[\w\s\-.,/$()&₹]`. -/
def clean_text (text : Option String) : String :=
  match text with
  | none => ""
  | some s =>
    if s = "" then ""
    else String.mk ((AJ.pyStrip (AJ.collapseWs s.data)).filter allowedChar)

/-- `generate_job_id(title, company, location)`: the first 16 hex digits of
the MD5 of the lowercased `"title|company|location"`. -/
def generate_job_id (title company location : String) : String :=
  String.mk
    ((md5hex (lowerStr (title ++ "|" ++ company ++ "|" ++ location))).data.take
      16)

/-- The unit alternation `(?:L|Lakh|Lakhs|LPA|K)?` of salary pattern 1, in
source order. -/
def unitAlts1 : List (List Char) :=
  ["L".data, "Lakh".data, "Lakhs".data, "LPA".data, "K".data]

/-- The unit alternation `(Lakhs?|LPA|Crores?)` of salary pattern 2,
expanded in backtracking order (greedy `s?` first). -/
def unitAlts2 : List (List Char) :=
  ["Lakhs".data, "Lakh".data, "LPA".data, "Crores".data, "Crore".data]

/-- The unit alternation `(L|Lakh|Lakhs|LPA|Crore|Crores)` of salary
pattern 3, in source order. -/
def unitAlts3 : List (List Char) :=
  ["L".data, "Lakh".data, "Lakhs".data, "LPA".data, "Crore".data,
   "Crores".data]

/-- The class `[₹Rs\.]` under IGNORECASE. -/
def isCurChar (c : Char) : Bool :=
  c = '₹' || c.toLower = 'r' || c.toLower = 's' || c = '.'

/-- One anchored attempt of salary pattern 1
`[₹Rs\.]+\s*(\d+(?:\.\d+)?)\s*(?:L|Lakh|Lakhs|LPA|K)?\s*-\s*[₹Rs\.]*\s*(\d+(?:\.\d+)?)\s*(L|Lakh|Lakhs|LPA|K)?`
(IGNORECASE), capturing groups 1, 2 and the optional group 3. -/
def pat1At (s : List Char) :
    Option (List Char × List Char × Option (List Char)) :=
  plusC isCurChar s fun r1 =>
  starC pySpace r1 fun r2 =>
  numGroup r2 fun g1 r3 =>
  starC pySpace r3 fun r4 =>
  optAltCap unitAlts1 r4 fun _ r5 =>
  starC pySpace r5 fun r6 =>
  litC '-' r6 fun r7 =>
  starC pySpace r7 fun r8 =>
  starC isCurChar r8 fun r9 =>
  starC pySpace r9 fun r10 =>
  numGroup r10 fun g2 r11 =>
  starC pySpace r11 fun r12 =>
  optAltCap unitAlts1 r12 fun g3 _ => some (g1, g2, g3)

/-- Pattern-1 match of `extract_salary` with the unit conversion applied:
`unit.upper()` in `L/LAKH/LAKHS/LPA` scales by 100000, `K` by 1000, else
the bare `int(...)`.  Returns the bounds before the monthly heuristic. -/
def pat1Scaled (t : List Char) : Option (Nat × Nat) :=
  (searchAt pat1At t).map fun g =>
    let v1 := decVal g.1
    let v2 := decVal g.2.1
    let unit := g.2.2.getD []
    let u := unit.map Char.toUpper
    if !unit.isEmpty &&
        (u == "L".data || u == "LAKH".data || u == "LAKHS".data ||
          u == "LPA".data) then
      (scaleFloor v1 100000, scaleFloor v2 100000)
    else if !unit.isEmpty && u == "K".data then
      (scaleFloor v1 1000, scaleFloor v2 1000)
    else (scaleFloor v1 1, scaleFloor v2 1)

/-- One anchored attempt of salary pattern 2
`(\d+(?:\.\d+)?)\s*-\s*(\d+(?:\.\d+)?)\s*(Lakhs?|LPA|Crores?)`
(IGNORECASE). -/
def pat2At (s : List Char) : Option (List Char × List Char × List Char) :=
  numGroup s fun g1 r1 =>
  starC pySpace r1 fun r2 =>
  litC '-' r2 fun r3 =>
  starC pySpace r3 fun r4 =>
  numGroup r4 fun g2 r5 =>
  starC pySpace r5 fun r6 =>
  altCap unitAlts2 r6 fun g3 _ => some (g1, g2, g3)

/-- Pattern-2 match with unit conversion: a unit containing `crore`
(lowercased) scales by 10000000, otherwise by 100000. -/
def pat2Scaled (t : List Char) : Option (Nat × Nat) :=
  (searchAt pat2At t).map fun g =>
    let v1 := decVal g.1
    let v2 := decVal g.2.1
    let u := g.2.2.map Char.toLower
    if isSubstr "crore".data u then
      (scaleFloor v1 10000000, scaleFloor v2 10000000)
    else (scaleFloor v1 100000, scaleFloor v2 100000)

/-- One anchored attempt of salary pattern 3
`[₹Rs\.]+\s*(\d+(?:\.\d+)?)\s*(L|Lakh|Lakhs|LPA|Crore|Crores)`
(IGNORECASE). -/
def pat3At (s : List Char) : Option (List Char × List Char) :=
  plusC isCurChar s fun r1 =>
  starC pySpace r1 fun r2 =>
  numGroup r2 fun g1 r3 =>
  starC pySpace r3 fun r4 =>
  altCap unitAlts3 r4 fun g2 _ => some (g1, g2)

/-- Pattern-3 match with unit conversion applied to the single value. -/
def pat3Scaled (t : List Char) : Option Nat :=
  (searchAt pat3At t).map fun g =>
    let v := decVal g.1
    let u := g.2.map Char.toLower
    if isSubstr "crore".data u then scaleFloor v 10000000
    else scaleFloor v 100000

/-- The comma removal `text.replace(",", "")` at the top of
`extract_salary`. -/
def stripCommas (text : String) : List Char :=
  text.data.filter fun c => !(c = ',')

/-- `extract_salary(text)`: commas removed; pattern 1 with the sub-50000
monthly heuristic (both bounds times 12); else pattern 2; else pattern 3
with the synthesized range `[int(sal*0.8), int(sal*1.2)]`; else `None`.
Currency is always `"INR"`. -/
def extract_salary (text : String) : Option SalaryINR :=
  let t := stripCommas text
  match pat1Scaled t with
  | some (mn, mx) =>
    if mx < 50000 then some { min := mn * 12, max := mx * 12, currency := "INR" }
    else some { min := mn, max := mx, currency := "INR" }
  | none =>
    match pat2Scaled t with
    | some (mn, mx) => some { min := mn, max := mx, currency := "INR" }
    | none =>
      match pat3Scaled t with
      | some sal =>
        some { min := sal * 4 / 5, max := sal * 6 / 5, currency := "INR" }
      | none => none

/-- The senior-tier trigger substrings of `determine_experience_level`. -/
def seniorWords : List String :=
  ["senior", "lead", "principal", "10+ years", "8+ years", "sr."]

/-- The executive-tier trigger substrings of `determine_experience_level`. -/
def executiveWords : List String := ["manager", "director", "vp", "chief", "head"]

/-- `determine_experience_level(title, description)`: senior, executive,
mid, entry tiers in that order on the lowercased `title + " " +
description`, defaulting to `mid`. -/
def determine_experience_level (title description : String) : String :=
  let t := (lowerStr (title ++ " " ++ description)).data
  if seniorWords.any (fun w => isSubstr w.data t) then "senior"
  else if executiveWords.any (fun w => isSubstr w.data t) then "executive"
  else if ["mid-level", "3-5 years", "4-7 years", "experienced",
      "2-4 years"].any (fun w => isSubstr w.data t) then "mid"
  else if ["entry", "junior", "associate", "0-2 years", "graduate",
      "fresher", "trainee"].any (fun w => isSubstr w.data t) then "entry"
  else "mid"

/-- `determine_job_type(title, description)`. -/
def determine_job_type (title description : String) : String :=
  let t := (lowerStr (title ++ " " ++ description)).data
  if isSubstr "intern".data t then "internship"
  else if ["contract", "contractor", "temp", "temporary", "freelance"].any
      (fun w => isSubstr w.data t) then "contract"
  else if ["part-time", "part time", "parttime"].any
      (fun w => isSubstr w.data t) then "part-time"
  else "full-time"

/-- The `skills_keywords` list of `extract_skills`. -/
def skills_keywords : List String :=
  ["excel", "vba", "sql", "python", "r", "sas", "stata",
   "tableau", "power bi", "powerbi", "access", "matlab",
   "c++", "java", "javascript", "hadoop", "spark",
   "azure", "aws", "gcp", "machine learning", "ai",
   "prophet", "moses", "emblem", "axis", "igloo"]

/-- Model of `str.upper` (ASCII case map). -/
def upperStr (s : String) : String := String.mk (s.data.map Char.toUpper)

/-- Model of `str.title` (ASCII): uppercase a letter after a non-letter,
lowercase the other letters. -/
def titleAux : Bool → List Char → List Char
  | _, [] => []
  | prev, c :: cs =>
    (if c.isAlpha then (if prev then c.toLower else c.toUpper) else c) ::
      titleAux c.isAlpha cs

/-- Python `str.title()`. -/
def pyTitle (s : String) : String := String.mk (titleAux false s.data)

/-- The canonical display form of a matched skill keyword. -/
def skillDisplay (skill : String) : String :=
  if skill ∈ ["sql", "vba", "sas", "aws", "gcp", "ai"] then upperStr skill
  else if skill = "r" then "R"
  else pyTitle skill

/-- First-seen deduplication of a string list
(`list(dict.fromkeys(found_skills))`). -/
def dedupStrAux (seen : List String) : List String → List String
  | [] => []
  | x :: rest =>
    if x ∈ seen then dedupStrAux seen rest
    else x :: dedupStrAux (x :: seen) rest

/-- `extract_skills(description)` of `job_scraper.py`: keywords found as
substrings of the lowercased description, mapped to display form, order
preserved, first-seen deduplicated. -/
def extract_skills (description : String) : List String :=
  dedupStrAux []
    ((skills_keywords.filter fun skill =>
        isSubstr skill.data (lowerStr description).data).map skillDisplay)

/-- The `cert_keywords` list of `extract_certifications`. -/
def cert_keywords : List String :=
  ["FSA", "ASA", "FCAS", "ACAS", "EA", "MAAA", "CERA",
   "FIA", "CIA", "FIAI", "AIAI", "ACII", "FCII"]

/-- `extract_certifications(description)` of `job_scraper.py`: the
keywords occurring as plain case-sensitive substrings of the description,
in keyword-list order. -/
def extract_certifications (description : String) : List String :=
  cert_keywords.filter fun c => isSubstr c.data description.data

/-- The job dict assembled by the scrapers of `job_scraper.py` (the
`salary` key is present only when `extract_salary` found a value). -/
structure NJob where
  id : String
  title : String
  company : String
  location : String
  description : String
  url : String
  source : String
  jobType : String
  experienceLevel : String
  skills : List String
  qualifications : List String
  certifications : List String
  posted_date : String
  featured : Bool
  salary : Option SalaryINR
deriving DecidableEq

/-- The per-card body of `scrape_naukri` after element extraction: the
optional selector texts are cleaned, fall back to the documented defaults,
and the job dict is built and emitted unless the title is falsy or the id
was already seen.  `defaultLoc` is `self.location`, `today` the
`datetime.now` stamp, `pageUrl` the fetched URL (the href fallback);
no keyword filtering is applied to the card.  -/
def naukriProcessCard (seen : List String) (defaultLoc today pageUrl : String)
    (titleEl companyEl locationEl expEl salEl descEl hrefEl : Option String) :
    Option NJob :=
  let tOpt : Option String := titleEl.map fun s => clean_text (some s)
  let company := match companyEl with
    | some s => clean_text (some s)
    | none => "Unknown Company"
  let location := match locationEl with
    | some s => clean_text (some s)
    | none => defaultLoc
  let experience := match expEl with
    | some s => clean_text (some s)
    | none => ""
  let salary_text := match salEl with
    | some s => clean_text (some s)
    | none => ""
  let description := match descEl with
    | some s => clean_text (some s)
    | none =>
      (match tOpt with
       | some t => t
       | none => "None") ++ " at " ++ company
  let link0 := hrefEl.getD pageUrl
  let job_link :=
    if litStarts "http".data link0.data then link0
    else "https://www.naukri.com" ++ link0
  match tOpt with
  | none => none
  | some t =>
    if t = "" then none
    else
      let job_id := generate_job_id t company location
      if job_id ∈ seen then none
      else
        let full_text :=
          t ++ " " ++ description ++ " " ++ experience ++ " " ++ salary_text
        some
          { id := job_id
            title := t
            company := company
            location := location
            description := description
            url := job_link
            source := "Naukri"
            jobType := determine_job_type t full_text
            experienceLevel := determine_experience_level t full_text
            skills := extract_skills description
            qualifications := []
            certifications := extract_certifications description
            posted_date := today
            featured := false
            salary := extract_salary (salary_text ++ " " ++ description) }

/-- The combination step of `scrape_all`: `all_jobs = naukri_jobs +
indeed_jobs + linkedin_jobs` (no deduplication or sorting of its own;
cross-source duplicates are only prevented by the shared `seen_ids` set
inside the scrapers). -/
def scrape_all_combine (naukri indeed linkedin : List NJob) : List NJob :=
  naukri ++ indeed ++ linkedin

/-- The sort key tuple `(source, company, title)` on a `job_scraper.py`
job dict, for stating (non-)sortedness of `scrape_all` output. -/
def njobKey (j : NJob) : String × String × String := (j.source, j.company, j.title)

/-- Lexicographic order on `NJob` by `(source, company, title)`. -/
def njobLe (a b : NJob) : Prop := tupLeB (njobKey a) (njobKey b) = true

instance : DecidableRel njobLe := fun a b => by
  unfold njobLe; infer_instance

end JS

/-! ## `scrape_company_boards.py` -/

namespace CB

/-- `normalize(text)` of `scrape_company_boards.py`:
`re.sub(r"\s+", " ", (text or "")).strip()` — textually identical to
`AJ.normalize_whitespace`. -/
def normalize (text : Option String) : String :=
  String.mk (AJ.pyStrip (AJ.collapseWs (text.getD "").data))

end CB

/-! ## Order lemmas for the sort relations -/

theorem cmpN_eq_iff {a b : Nat} : cmpN a b = .eq ↔ a = b := by
  unfold cmpN
  split_ifs with h1 h2
  · simp; omega
  · simp [h2]
  · simp; omega

theorem cmpN_lt_iff {a b : Nat} : cmpN a b = .lt ↔ a < b := by
  unfold cmpN
  split_ifs with h1 h2
  · simp [h1]
  · simp; omega
  · simp; omega

theorem cmpN_gt_iff {a b : Nat} : cmpN a b = .gt ↔ b < a := by
  unfold cmpN
  split_ifs with h1 h2
  · simp; omega
  · simp; omega
  · simp; omega

theorem cmpN_swap (a b : Nat) : cmpN b a = (cmpN a b).swap := by
  unfold cmpN
  rcases Nat.lt_trichotomy a b with h | h | h
  · have h1 : ¬ b < a := by omega
    have h2 : ¬ b = a := by omega
    simp [h, h1, h2, Ordering.swap]
  · simp [h, Ordering.swap]
  · have h1 : ¬ a < b := by omega
    have h2 : ¬ a = b := by omega
    simp [h, h1, h2, Ordering.swap]

theorem lexCmpN_eq_iff : ∀ x y : List Nat, lexCmpN x y = .eq ↔ x = y := by
  intro x
  induction x with
  | nil => intro y; cases y <;> simp [lexCmpN]
  | cons a as ih =>
    intro y
    cases y with
    | nil => simp [lexCmpN]
    | cons b bs =>
      simp only [lexCmpN]
      cases h : cmpN a b with
      | lt =>
        have hab : a < b := cmpN_lt_iff.mp h
        simp only [List.cons.injEq]
        constructor
        · intro hc; exact Ordering.noConfusion hc
        · rintro ⟨h1, h2⟩; omega
      | eq =>
        have hab : a = b := cmpN_eq_iff.mp h
        simp [hab, ih bs]
      | gt =>
        have hab : b < a := cmpN_gt_iff.mp h
        simp only [List.cons.injEq]
        constructor
        · intro hc; exact Ordering.noConfusion hc
        · rintro ⟨h1, h2⟩; omega

theorem lexCmpN_swap : ∀ x y : List Nat, lexCmpN y x = (lexCmpN x y).swap := by
  intro x
  induction x with
  | nil => intro y; cases y <;> simp [lexCmpN, Ordering.swap]
  | cons a as ih =>
    intro y
    cases y with
    | nil => simp [lexCmpN, Ordering.swap]
    | cons b bs =>
      simp only [lexCmpN, cmpN_swap a b]
      cases h : cmpN a b with
      | lt => simp [Ordering.swap]
      | eq => simp [Ordering.swap, ih bs]
      | gt => simp [Ordering.swap]

theorem lexCmpN_lt_trans :
    ∀ x y z : List Nat, lexCmpN x y = .lt → lexCmpN y z = .lt →
      lexCmpN x z = .lt := by
  intro x
  induction x with
  | nil =>
    intro y z h1 h2
    cases y with
    | nil => simp [lexCmpN] at h1
    | cons b bs =>
      cases z with
      | nil => simp [lexCmpN] at h2
      | cons c cs => simp [lexCmpN]
  | cons a as ih =>
    intro y z h1 h2
    cases y with
    | nil => simp [lexCmpN] at h1
    | cons b bs =>
      cases z with
      | nil =>
        simp only [lexCmpN] at h2
        cases h2
      | cons c cs =>
        simp only [lexCmpN] at h1 h2 ⊢
        cases hab : cmpN a b with
        | gt => rw [hab] at h1; exact Ordering.noConfusion h1
        | lt =>
          have h3 : a < b := cmpN_lt_iff.mp hab
          cases hbc : cmpN b c with
          | gt => rw [hbc] at h2; exact Ordering.noConfusion h2
          | lt =>
            have h4 : b < c := cmpN_lt_iff.mp hbc
            rw [cmpN_lt_iff.mpr (by omega : a < c)]
          | eq =>
            have h4 : b = c := cmpN_eq_iff.mp hbc
            rw [cmpN_lt_iff.mpr (by omega : a < c)]
        | eq =>
          have h3 : a = b := cmpN_eq_iff.mp hab
          rw [hab] at h1
          cases hbc : cmpN b c with
          | gt => rw [hbc] at h2; exact Ordering.noConfusion h2
          | lt =>
            have h4 : b < c := cmpN_lt_iff.mp hbc
            rw [cmpN_lt_iff.mpr (by omega : a < c)]
          | eq =>
            have h4 : b = c := cmpN_eq_iff.mp hbc
            rw [hbc] at h2
            rw [cmpN_eq_iff.mpr (by omega : a = c)]
            exact ih bs cs h1 h2

theorem lexCmp_eq_key {a b : String} (h : lexCmp a b = .eq) :
    a.data.map Char.toNat = b.data.map Char.toNat :=
  (lexCmpN_eq_iff _ _).mp h

theorem lexCmp_congr_left {a b : String} (h : lexCmp a b = .eq)
    (c : String) : lexCmp a c = lexCmp b c := by
  unfold lexCmp
  rw [lexCmp_eq_key h]

theorem lexCmp_congr_right {b c : String} (h : lexCmp b c = .eq)
    (a : String) : lexCmp a b = lexCmp a c := by
  unfold lexCmp
  rw [lexCmp_eq_key h]

theorem lexCmp_lt_trans {a b c : String} (h1 : lexCmp a b = .lt)
    (h2 : lexCmp b c = .lt) : lexCmp a c = .lt :=
  lexCmpN_lt_trans _ _ _ h1 h2

theorem lexCmp_swap (a b : String) : lexCmp b a = (lexCmp a b).swap :=
  lexCmpN_swap _ _

theorem strLeB_iff {a b : String} : strLeB a b = true ↔ lexCmp a b ≠ .gt := by
  unfold strLeB
  cases h : lexCmp a b <;> simp

theorem strLeB_trans {a b c : String} (h1 : strLeB a b = true)
    (h2 : strLeB b c = true) : strLeB a c = true := by
  rw [strLeB_iff] at h1 h2 ⊢
  cases hab : lexCmp a b with
  | gt => exact absurd hab h1
  | lt =>
    cases hbc : lexCmp b c with
    | gt => exact absurd hbc h2
    | lt => simp [lexCmp_lt_trans hab hbc]
    | eq => rw [← lexCmp_congr_right hbc a, hab]; simp
  | eq =>
    cases hbc : lexCmp b c with
    | gt => exact absurd hbc h2
    | lt => rw [lexCmp_congr_left hab c, hbc]; simp
    | eq => rw [lexCmp_congr_left hab c, hbc]; simp

theorem strLeB_total (a b : String) : strLeB a b = true ∨ strLeB b a = true := by
  rw [strLeB_iff, strLeB_iff]
  cases h : lexCmp a b with
  | lt => left; simp
  | eq => left; simp
  | gt =>
    right
    rw [lexCmp_swap a b, h]
    simp [Ordering.swap]

theorem tupLeB_iff (x y : String × String × String) :
    tupLeB x y = true ↔
      lexCmp x.1 y.1 = .lt ∨
        (lexCmp x.1 y.1 = .eq ∧
          (lexCmp x.2.1 y.2.1 = .lt ∨
            (lexCmp x.2.1 y.2.1 = .eq ∧ strLeB x.2.2 y.2.2 = true))) := by
  obtain ⟨x1, x2, x3⟩ := x
  obtain ⟨y1, y2, y3⟩ := y
  simp only [tupLeB]
  cases h1 : lexCmp x1 y1 <;> cases h2 : lexCmp x2 y2 <;> simp

theorem tupLeB_trans {x y z : String × String × String}
    (h1 : tupLeB x y = true) (h2 : tupLeB y z = true) : tupLeB x z = true := by
  rw [tupLeB_iff] at h1 h2 ⊢
  rcases h1 with h1 | ⟨h1e, h1r⟩
  · rcases h2 with h2 | ⟨h2e, h2r⟩
    · exact Or.inl (lexCmp_lt_trans h1 h2)
    · left; rw [← lexCmp_congr_right h2e x.1]; exact h1
  · rcases h2 with h2 | ⟨h2e, h2r⟩
    · left; rw [lexCmp_congr_left h1e z.1]; exact h2
    · right
      refine ⟨by rw [lexCmp_congr_left h1e z.1]; exact h2e, ?_⟩
      rcases h1r with h1 | ⟨h1e2, h1r2⟩
      · rcases h2r with h2 | ⟨h2e2, h2r2⟩
        · exact Or.inl (lexCmp_lt_trans h1 h2)
        · left; rw [← lexCmp_congr_right h2e2 x.2.1]; exact h1
      · rcases h2r with h2 | ⟨h2e2, h2r2⟩
        · left; rw [lexCmp_congr_left h1e2 z.2.1]; exact h2
        · right
          exact ⟨by rw [lexCmp_congr_left h1e2 z.2.1]; exact h2e2,
            strLeB_trans h1r2 h2r2⟩

theorem tupLeB_total (x y : String × String × String) :
    tupLeB x y = true ∨ tupLeB y x = true := by
  rw [tupLeB_iff, tupLeB_iff]
  cases h1 : lexCmp x.1 y.1 with
  | lt => left; left; rfl
  | gt =>
    right; left
    rw [lexCmp_swap x.1 y.1, h1]
    rfl
  | eq =>
    have h1s : lexCmp y.1 x.1 = .eq := by rw [lexCmp_swap x.1 y.1, h1]; rfl
    cases h2 : lexCmp x.2.1 y.2.1 with
    | lt => left; right; exact ⟨rfl, Or.inl rfl⟩
    | gt =>
      right; right
      refine ⟨h1s, Or.inl ?_⟩
      rw [lexCmp_swap x.2.1 y.2.1, h2]
      rfl
    | eq =>
      have h2s : lexCmp y.2.1 x.2.1 = .eq := by
        rw [lexCmp_swap x.2.1 y.2.1, h2]; rfl
      rcases strLeB_total x.2.2 y.2.2 with h3 | h3
      · left; right; exact ⟨rfl, Or.inr ⟨rfl, h3⟩⟩
      · right; right; exact ⟨h1s, Or.inr ⟨h2s, h3⟩⟩

theorem strLe_trans_rel : ∀ a b c : String, strLe a b → strLe b c → strLe a c :=
  fun _ _ _ => strLeB_trans

theorem strLe_total_rel : ∀ a b : String, strLe a b ∨ strLe b a :=
  strLeB_total

theorem jobLe_trans : ∀ a b c : AJ.Job, AJ.jobLe a b → AJ.jobLe b c → AJ.jobLe a c :=
  fun _ _ _ => tupLeB_trans

theorem jobLe_total : ∀ a b : AJ.Job, AJ.jobLe a b ∨ AJ.jobLe b a :=
  fun a b => tupLeB_total (AJ.jobKey a) (AJ.jobKey b)

/-! ## Dedup lemmas -/

theorem dedupeAux_sublist :
    ∀ (js : List AJ.Job) (seen : List String),
      (AJ.dedupeAux seen js).Sublist js := by
  intro js
  induction js with
  | nil => intro seen; simp [AJ.dedupeAux]
  | cons j rest ih =>
    intro seen
    simp only [AJ.dedupeAux]
    split_ifs with h
    · exact (ih seen).cons j
    · exact (ih (j.id :: seen)).cons₂ j

theorem mem_dedupeAux_not_seen :
    ∀ (js : List AJ.Job) (seen : List String) (j : AJ.Job),
      j ∈ AJ.dedupeAux seen js → j.id ∉ seen := by
  intro js
  induction js with
  | nil => intro seen j h; simp [AJ.dedupeAux] at h
  | cons k rest ih =>
    intro seen j h
    simp only [AJ.dedupeAux] at h
    split_ifs at h with hk
    · exact ih seen j h
    · rcases List.mem_cons.mp h with rfl | hmem
      · exact hk
      · have := ih (k.id :: seen) j hmem
        intro hs
        exact this (List.mem_cons_of_mem _ hs)

theorem dedupeAux_ids_nodup :
    ∀ (js : List AJ.Job) (seen : List String),
      ((AJ.dedupeAux seen js).map AJ.Job.id).Nodup := by
  intro js
  induction js with
  | nil => intro seen; simp [AJ.dedupeAux]
  | cons k rest ih =>
    intro seen
    simp only [AJ.dedupeAux]
    split_ifs with hk
    · exact ih seen
    · simp only [List.map_cons, List.nodup_cons]
      refine ⟨?_, ih (k.id :: seen)⟩
      intro hmem
      rcases List.mem_map.mp hmem with ⟨j, hj, hid⟩
      exact mem_dedupeAux_not_seen rest (k.id :: seen) j hj
        (by rw [hid]; exact List.mem_cons_self _ _)

theorem dedupeAux_filter_seen :
    ∀ (js : List AJ.Job) (seen : List String) (x : String), x ∈ seen →
      (AJ.dedupeAux seen js).filter (fun j => j.id == x) = [] := by
  intro js
  induction js with
  | nil => intro seen x hx; simp [AJ.dedupeAux]
  | cons k rest ih =>
    intro seen x hx
    simp only [AJ.dedupeAux]
    split_ifs with hk
    · exact ih seen x hx
    · rw [List.filter_cons]
      have hne : ¬(k.id == x) = true := by
        simp only [beq_iff_eq]
        intro he
        exact hk (he ▸ hx)
      simp only [hne, if_false]
      exact ih (k.id :: seen) x (List.mem_cons_of_mem _ hx)

theorem dedupeAux_filter_not_seen :
    ∀ (js : List AJ.Job) (seen : List String) (x : String), x ∉ seen →
      (AJ.dedupeAux seen js).filter (fun j => j.id == x) =
        (js.filter (fun j => j.id == x)).take 1 := by
  intro js
  induction js with
  | nil => intro seen x hx; simp [AJ.dedupeAux]
  | cons k rest ih =>
    intro seen x hx
    simp only [AJ.dedupeAux]
    split_ifs with hk
    · have hne : ¬(k.id == x) = true := by
        simp only [beq_iff_eq]
        intro he
        exact hx (he ▸ hk)
      rw [List.filter_cons]
      simp only [hne, if_false]
      exact ih seen x hx
    · by_cases hkx : k.id = x
      · rw [List.filter_cons, List.filter_cons]
        have hkb : (k.id == x) = true := by simp [hkx]
        simp only [hkb, if_true]
        rw [List.take_cons (by omega)]
        have h0 : (AJ.dedupeAux (k.id :: seen) rest).filter (fun j => j.id == x) = [] :=
          dedupeAux_filter_seen rest (k.id :: seen) x
            (by rw [hkx]; exact List.mem_cons_self _ _)
        rw [h0]
        simp
      · rw [List.filter_cons, List.filter_cons]
        have hne : ¬(k.id == x) = true := by simp [beq_iff_eq, hkx]
        simp only [hne, if_false]
        exact ih (k.id :: seen) x (by
          intro hmem
          rcases List.mem_cons.mp hmem with he | hs
          · exact hkx he.symm
          · exact hx hs)

theorem dedupeAux_of_nodup :
    ∀ (js : List AJ.Job) (seen : List String),
      (∀ j ∈ js, j.id ∉ seen) → ((js.map AJ.Job.id).Nodup) →
      AJ.dedupeAux seen js = js := by
  intro js
  induction js with
  | nil => intro seen h1 h2; simp [AJ.dedupeAux]
  | cons k rest ih =>
    intro seen h1 h2
    simp only [AJ.dedupeAux]
    have hk : k.id ∉ seen := h1 k (List.mem_cons_self _ _)
    rw [if_neg hk]
    congr 1
    simp only [List.map_cons, List.nodup_cons] at h2
    refine ih (k.id :: seen) ?_ h2.2
    intro j hj hmem
    rcases List.mem_cons.mp hmem with he | hs
    · exact h2.1 (he ▸ List.mem_map_of_mem AJ.Job.id hj)
    · exact h1 j (List.mem_cons_of_mem _ hj) hs

/-! ## Claims C3, C10, C6 -/

/-- C3: for every input list, `dedupe` returns a list with no two elements
sharing an `id`; for each `id`, the output contains exactly the first
input element bearing it, with all field values unchanged (it is that very
element); and output order is the relative input order of those first
occurrences (the output is a sublist of the input). -/
theorem claim_C3 (js : List AJ.Job) :
    ((AJ.dedupe js).map AJ.Job.id).Nodup ∧
      (∀ x : String,
        (AJ.dedupe js).filter (fun j => j.id == x) =
          (js.filter (fun j => j.id == x)).take 1) ∧
      (AJ.dedupe js).Sublist js :=
  ⟨dedupeAux_ids_nodup js [],
    fun x => dedupeAux_filter_not_seen js [] x (by simp),
    dedupeAux_sublist js []⟩

/-- C10: `dedupe` is idempotent, and a list whose ids are already
duplicate-free is returned unchanged. -/
theorem claim_C10 (js : List AJ.Job) :
    AJ.dedupe (AJ.dedupe js) = AJ.dedupe js ∧
      ((js.map AJ.Job.id).Nodup → AJ.dedupe js = js) := by
  constructor
  · exact dedupeAux_of_nodup (AJ.dedupe js) []
      (by intro j hj; simp) (dedupeAux_ids_nodup js [])
  · intro h
    exact dedupeAux_of_nodup js [] (by intro j hj; simp) h

/-- Witness for the conditional part of C10 at a concrete list. -/
theorem claim_C10_witness :
    AJ.dedupe [] = ([] : List AJ.Job) :=
  (claim_C10 []).2 (by decide)

/-- C6 counterexample: `scrape_all` of `job_scraper.py` only concatenates
the per-adapter lists (`naukri_jobs + indeed_jobs + linkedin_jobs`) and
never sorts, so with a nonempty Naukri list and a nonempty Indeed list the
result is not sorted by `(source, company, title)` (the Naukri posting
precedes the Indeed posting although `"Indeed" < "Naukri"`). -/
theorem claim_C6_counterexample :
    ¬ List.Pairwise JS.njobLe
      (JS.scrape_all_combine
        [{ id := "n1", title := "T", company := "C", location := "L",
           description := "D", url := "u", source := "Naukri",
           jobType := "full-time", experienceLevel := "mid", skills := [],
           qualifications := [], certifications := [],
           posted_date := "2026-01-01", featured := false, salary := none }]
        [{ id := "i1", title := "T", company := "C", location := "L",
           description := "D", url := "u", source := "Indeed",
           jobType := "full-time", experienceLevel := "mid", skills := [],
           qualifications := [], certifications := [],
           posted_date := "2026-01-01", featured := false, salary := none }]
        []) := by
  decide

/-- C6 (amended): the merge step of `run_scrape` in
`scrape_actuarial_jobs.py` concatenates the per-adapter outputs,
deduplicates by id and sorts, so its result is always sorted by
`(source, company, title)` and has pairwise-distinct ids (and, being a
function of the adapter outputs, is reproducible); `scrape_all` of
`job_scraper.py` only concatenates (see the counterexample). -/
theorem claim_C6 (results : List (List AJ.Job)) :
    List.Pairwise AJ.jobLe (AJ.run_scrape_merge results) ∧
      ((AJ.run_scrape_merge results).map AJ.Job.id).Nodup := by
  constructor
  · haveI : IsTrans AJ.Job AJ.jobLe := ⟨jobLe_trans⟩
    haveI : IsTotal AJ.Job AJ.jobLe := ⟨jobLe_total⟩
    exact List.sorted_insertionSort AJ.jobLe (AJ.dedupe results.flatten)
  · have hperm :=
      (List.perm_insertionSort AJ.jobLe (AJ.dedupe results.flatten)).map
        AJ.Job.id
    exact hperm.nodup_iff.mpr (dedupeAux_ids_nodup results.flatten [])

/-! ## Claims C5, C7 -/

/-- C5 counterexample: `determine_experience_level` checks its senior tier
before its executive tier, so the text `"Senior Manager"` — which contains
the executive-indicating term `manager` — yields `senior`, not
`executive`. -/
theorem claim_C5_counterexample :
    JS.determine_experience_level "Senior Manager" "" = "senior" ∧
      isSubstr "manager".data
        (lowerStr ("Senior Manager" ++ " " ++ "")).data = true ∧
      ("senior" : String) ≠ "executive" := by
  decide

/-- C5 (amended): in `determine_experience_level` the senior tier is
checked first; a text containing an executive term (manager, director, vp,
chief, head) yields `executive` only when no senior term (senior, lead,
principal, 10+ years, 8+ years, sr.) also occurs.  In `infer_experience`
of `scrape_actuarial_jobs.py` the executive tier (executive, manager,
lead, director — not principal/head/vp/chief) is checked first and does
win over everything. -/
theorem claim_C5 :
    (∀ title description : String,
        JS.executiveWords.any
          (fun w => isSubstr w.data
            (lowerStr (title ++ " " ++ description)).data) = true →
        JS.seniorWords.any
          (fun w => isSubstr w.data
            (lowerStr (title ++ " " ++ description)).data) = false →
        JS.determine_experience_level title description = "executive") ∧
      (∀ text : String,
        (["executive", "manager", "lead", "director"].any
          (fun w => isSubstr w.data (lowerStr text).data)) = true →
        AJ.infer_experience text = some "executive") := by
  constructor
  · intro title description hexec hsen
    simp only [JS.determine_experience_level]
    rw [hsen, hexec]
    simp
  · intro text hexec
    simp only [AJ.infer_experience]
    rw [hexec]
    simp

/-- Witness for C5 at concrete inputs. -/
theorem claim_C5_witness :
    JS.determine_experience_level "Manager" "" = "executive" ∧
      AJ.infer_experience "director wanted" = some "executive" :=
  ⟨claim_C5.1 "Manager" "" (by decide) (by decide),
    claim_C5.2 "director wanted" (by decide)⟩

/-- C7 counterexample: `extract_certifications` of `job_scraper.py`
matches certification codes as plain case-sensitive substrings, so `EA`
inside the word `YEARS` is returned even though it has no word-boundary
occurrence. -/
theorem claim_C7_counterexample :
    JS.extract_certifications "10 YEARS of experience" = ["EA"] ∧
      wbSearch "EA".data "10 YEARS of experience".data = false := by
  decide

/-- C7 (amended): `extract_certs` of `scrape_actuarial_jobs.py` does
return a code only on a case-sensitive word-boundary occurrence;
`extract_certifications` of `job_scraper.py` instead uses plain
case-sensitive substring containment (see the counterexample). -/
theorem claim_C7 (text c : String) (h : c ∈ AJ.extract_certs text) :
    c ∈ AJ.CERTS ∧ wbSearch c.data text.data = true := by
  unfold AJ.extract_certs at h
  have hmem :=
    (List.perm_insertionSort strLe
      (AJ.CERTS.filter fun c => wbSearch c.data text.data)).mem_iff.mp h
  exact List.mem_filter.mp hmem

/-- Witness for C7 at a concrete input. -/
theorem claim_C7_witness :
    "FSA" ∈ AJ.extract_certs "FSA required" ∧
      ("FSA" ∈ AJ.CERTS ∧ wbSearch "FSA".data "FSA required".data = true) := by
  have h : "FSA" ∈ AJ.extract_certs "FSA required" := by decide
  exact ⟨h, claim_C7 "FSA required" "FSA" h⟩

/-! ## Claims C4, C1 -/

/-- C4 counterexample: changing the title from `"a"` to the different
value `"a!"` does not change `gen_id`, because `gen_id` strips
non-alphanumeric characters before truncating. -/
theorem claim_C4_counterexample :
    AJ.gen_id "a!" "b" "c" "d" = AJ.gen_id "a" "b" "c" "d" ∧
      ("a!" : String) ≠ "a" := by
  decide

/-- C4 (amended): both id generators are deterministic functions, but they
identify more than the exact field tuple: `gen_id` is invariant under
appending a non-alphanumeric character to the title (and truncates to 64
sanitized characters), and `generate_job_id` hashes only the lowercased
`title|company|location` — the url is not an input at all and letter case
is erased — so changing one field to a different value need not change
the id. -/
theorem claim_C4 :
    (∀ t c l u : String, AJ.gen_id (t ++ "!") c l u = AJ.gen_id t c l u) ∧
      JS.generate_job_id "Actuary" "ACME" "Mumbai" =
        JS.generate_job_id "Actuary" "acme" "Mumbai" := by
  constructor
  · intro t c l u
    unfold AJ.gen_id
    congr 2
    simp only [String.data_append, List.filter_append]
    have h1 : List.filter isAlnumA "!".data = [] := rfl
    rw [h1]
    simp
  · unfold JS.generate_job_id
    have h : lowerStr ("Actuary" ++ "|" ++ "ACME" ++ "|" ++ "Mumbai") =
        lowerStr ("Actuary" ++ "|" ++ "acme" ++ "|" ++ "Mumbai") := by decide
    rw [h]

/-- C1 counterexample: on the exact text of the claim, `extract_salary`
finds no salary at all — pattern 1 requires a currency marker from
`[₹Rs.]` before the first number and patterns 2 and 3 require an explicit
scale unit — so it returns `None`, not the annualized record. -/
theorem claim_C1_counterexample :
    JS.extract_salary "50000 - 100000 per month" ≠
        some { min := 600000, max := 1200000, currency := "INR" } ∧
      JS.extract_salary "50000 - 100000 per month" = none := by
  decide

/-- C1 (amended): the times-12 monthly annualization applies exactly to
pattern-1 matches (currency-marked ranges) whose unit-converted maximum is
below 50000: both bounds are then multiplied by 12.  (The text
`"50000 - 100000 per month"` matches no pattern at all — see the
counterexample — and a match like `"₹50000 - ₹100000"` has max 100000 and
is not annualized.) -/
theorem claim_C1 (text : String) (mn mx : Nat)
    (h : JS.pat1Scaled (JS.stripCommas text) = some (mn, mx))
    (hlt : mx < 50000) :
    JS.extract_salary text =
      some { min := mn * 12, max := mx * 12, currency := "INR" } := by
  simp only [JS.extract_salary]
  rw [h]
  simp [hlt]

/-- Witness for C1 at a concrete currency-marked monthly-scale range. -/
theorem claim_C1_witness :
    JS.pat1Scaled (JS.stripCommas "₹100 - ₹200") = some (100, 200) ∧
      (200 : Nat) < 50000 ∧
      JS.extract_salary "₹100 - ₹200" =
        some { min := 1200, max := 2400, currency := "INR" } := by
  have h : JS.pat1Scaled (JS.stripCommas "₹100 - ₹200") = some (100, 200) := by
    decide
  exact ⟨h, by decide, claim_C1 "₹100 - ₹200" 100 200 h (by decide)⟩

/-! ## Claim C8 -/

/-- C8 counterexample: a descending textual range yields a salary record
with `min > max` — `parse_salary("$100 - $5")` returns
`min = 100, max = 5`. -/
theorem claim_C8_counterexample :
    AJ.parse_salary "$100 - $5" =
        some { min := some 100, max := some 5, currency := "USD" } ∧
      ¬((100 : Nat) ≤ 5) := by
  decide

/-- C8 (amended): salary records satisfy `min ≤ max` whenever the matched
range is ascending: for `extract_salary`, a pattern-1 match with converted
bounds `mn ≤ mx` yields a record with `min ≤ max` (the times-12
annualization preserves the order), a pattern-3 single-value match always
yields the ascending range `[int(sal*0.8), int(sal*1.2)]`, and for
`parse_salary` an ascending pair of matched numbers yields
`min ≤ max`; a descending range violates the invariant (see the
counterexample). -/
theorem claim_C8 :
    (∀ (text : String) (mn mx : Nat),
        JS.pat1Scaled (JS.stripCommas text) = some (mn, mx) → mn ≤ mx →
        ∃ s : JS.SalaryINR,
          JS.extract_salary text = some s ∧ s.min ≤ s.max) ∧
      (∀ (text : String) (sal : Nat),
        JS.pat1Scaled (JS.stripCommas text) = none →
        JS.pat2Scaled (JS.stripCommas text) = none →
        JS.pat3Scaled (JS.stripCommas text) = some sal →
        ∃ s : JS.SalaryINR,
          JS.extract_salary text = some s ∧ s.min ≤ s.max) ∧
      (∀ (text : String) (g2 g4 : List Char),
        text ≠ "" →
        searchAt AJ.psAt text.data = some (g2, g4) →
        g2.filter isDigitA ≠ [] → g4.filter isDigitA ≠ [] →
        natOfDigits (g2.filter isDigitA) ≤ natOfDigits (g4.filter isDigitA) →
        AJ.parse_salary text =
          some { min := some (natOfDigits (g2.filter isDigitA)),
                 max := some (natOfDigits (g4.filter isDigitA)),
                 currency := "USD" } ∧
          natOfDigits (g2.filter isDigitA) ≤ natOfDigits (g4.filter isDigitA)) := by
  refine ⟨?_, ?_, ?_⟩
  · intro text mn mx h hle
    simp only [JS.extract_salary]
    rw [h]
    by_cases hlt : mx < 50000
    · refine ⟨{ min := mn * 12, max := mx * 12, currency := "INR" }, ?_, ?_⟩
      · simp [hlt]
      · simpa using Nat.mul_le_mul_right 12 hle
    · refine ⟨{ min := mn, max := mx, currency := "INR" }, ?_, hle⟩
      simp [hlt]
  · intro text sal h1 h2 h3
    simp only [JS.extract_salary]
    rw [h1, h2, h3]
    refine ⟨{ min := sal * 4 / 5, max := sal * 6 / 5, currency := "INR" },
      rfl, ?_⟩
    simp only
    exact Nat.div_le_div_right (Nat.mul_le_mul_left sal (by omega))
  · intro text g2 g4 hne hs hd2 hd4 hle
    refine ⟨?_, hle⟩
    simp only [AJ.parse_salary]
    rw [if_neg hne, hs]
    simp only
    rw [if_neg]
    simp only [hd2, hd4]
    simp [hd2, hd4]

/-- Witness for C8 at concrete inputs, one per conjunct. -/
theorem claim_C8_witness :
    (∃ s : JS.SalaryINR,
        JS.extract_salary "₹100 - ₹200" = some s ∧ s.min ≤ s.max) ∧
      (∃ s : JS.SalaryINR,
        JS.extract_salary "₹5 Lakh" = some s ∧ s.min ≤ s.max) ∧
      AJ.parse_salary "$100 - $200" =
        some { min := some 100, max := some 200, currency := "USD" } := by
  refine ⟨claim_C8.1 "₹100 - ₹200" 100 200 (by decide) (by decide),
    claim_C8.2.1 "₹5 Lakh" 500000 (by decide) (by decide) (by decide),
    (claim_C8.2.2 "$100 - $200" "100".data "200".data (by decide) (by decide)
      (by decide) (by decide) (by decide)).1⟩

/-! ## Claim C2 -/

/-- C2 counterexample: the Naukri card pipeline of `job_scraper.py` emits
a posting without any keyword check — with keyword list `["actuarial"]`,
a card whose title/company/description contain no keyword is still
emitted. -/
theorem claim_C2_counterexample :
    ∃ j : JS.NJob,
      JS.naukriProcessCard [] "India" "2026-10-12" "https://u"
          (some "Chef") (some "Resto") (some "Goa") none none none none =
        some j ∧
      (["actuarial"].all fun k =>
        !isSubstr (lowerStr k).data
          (lowerStr (j.title ++ " " ++ j.company ++ " " ++ j.description)).data) =
        true ∧
      (["actuarial"] : List String) ≠ [] := by
  refine ⟨_, rfl, ?_, by decide⟩
  decide

/-- C2 (amended): for the adapters of `scrape_actuarial_jobs.py` (and
`scrape_company_boards.py`), which gate every emission on
`matches_filters`, a posting is emitted with a nonempty keyword list only
if some keyword occurs case-insensitively in the combined
title+company+description; the `job_scraper.py` adapters put keywords
only in the request URL and emit parsed cards unfiltered (see the
counterexample). -/
theorem claim_C2 (keywords locations : List String) (remote_only : Bool)
    (title company location job_url desc : String)
    (hk : keywords ≠ [])
    (h : (AJ.soaProcessItem keywords locations remote_only title company
        location job_url desc).isSome = true) :
    ∃ k ∈ keywords,
      isSubstr (lowerStr k).data
        (lowerStr (title ++ " " ++ company ++ " " ++ desc)).data = true := by
  simp only [AJ.soaProcessItem] at h
  split_ifs at h with h1 h2
  · simp at h
  · simp only [AJ.matches_filters] at h2
    split_ifs at h2 with hc1 hc2 hc3
    have hke : keywords.isEmpty = false := by
      cases keywords with
      | nil => exact absurd rfl hk
      | cons a t => rfl
    simp only [hke, Bool.not_false, Bool.true_and, Bool.not_eq_true',
      Bool.not_eq_false] at hc1
    rcases List.any_eq_true.mp hc1 with ⟨k, hkmem, hksub⟩
    exact ⟨k, hkmem, hksub⟩
  · simp at h

/-- Witness for C2 at a concrete emitted posting. -/
theorem claim_C2_witness :
    (["actuary"] : List String) ≠ [] ∧
      (AJ.soaProcessItem ["actuary"] [] false "Actuary" "Acme" "" "u"
        "d").isSome = true ∧
      ∃ k ∈ (["actuary"] : List String),
        isSubstr (lowerStr k).data
          (lowerStr ("Actuary" ++ " " ++ "Acme" ++ " " ++ "d")).data = true :=
  ⟨by decide, by decide,
    claim_C2 ["actuary"] [] false "Actuary" "Acme" "" "u" "d" (by decide)
      (by decide)⟩

/-! ## Whitespace-normalization lemmas and claim C9 -/

theorem pyStrip_eq (l : List Char) :
    AJ.pyStrip l = (l.dropWhile pySpace).rdropWhile pySpace := rfl

theorem pyStrip_infixOf (l : List Char) : AJ.pyStrip l <:+: l := by
  obtain ⟨t, ht⟩ := List.rdropWhile_prefix pySpace (l.dropWhile pySpace)
  obtain ⟨s, hs⟩ := List.dropWhile_suffix (l := l) pySpace
  refine ⟨s, t, ?_⟩
  rw [List.append_assoc, pyStrip_eq, ht, hs]

theorem filter_dropWhile_pySpace :
    ∀ l : List Char,
      (l.dropWhile pySpace).filter (fun c => !pySpace c) =
        l.filter (fun c => !pySpace c) := by
  intro l
  induction l with
  | nil => rfl
  | cons a t ih =>
    by_cases h : pySpace a = true
    · simp [List.dropWhile_cons, h, List.filter_cons, ih]
    · simp [List.dropWhile_cons, h, List.filter_cons]

theorem filter_rdropWhile_pySpace (l : List Char) :
    (l.rdropWhile pySpace).filter (fun c => !pySpace c) =
      l.filter (fun c => !pySpace c) := by
  rw [List.rdropWhile, List.filter_reverse, filter_dropWhile_pySpace,
    List.filter_reverse, List.reverse_reverse]

theorem collapseWs_filter :
    ∀ l : List Char,
      (AJ.collapseWs l).filter (fun c => !pySpace c) =
        l.filter (fun c => !pySpace c) := by
  intro l
  induction l with
  | nil => rfl
  | cons a t ih =>
    cases t with
    | nil =>
      by_cases h : pySpace a = true
      · simp [AJ.collapseWs, h, List.filter_cons,
          show pySpace ' ' = true from rfl]
      · simp [AJ.collapseWs, h, List.filter_cons]
    | cons b r =>
      by_cases h1 : pySpace a = true <;> by_cases h2 : pySpace b = true
      · simpa [AJ.collapseWs, h1, h2, List.filter_cons] using ih
      · simpa [AJ.collapseWs, h1, h2, List.filter_cons,
          show pySpace ' ' = true from rfl] using ih
      · simpa [AJ.collapseWs, h1, h2, List.filter_cons] using ih
      · simpa [AJ.collapseWs, h1, h2, List.filter_cons] using ih

theorem collapseWs_cons_nonspace (b : Char) (rest : List Char)
    (h : pySpace b = false) :
    AJ.collapseWs (b :: rest) = b :: AJ.collapseWs rest := by
  cases rest with
  | nil => simp [AJ.collapseWs, h]
  | cons c r => simp [AJ.collapseWs, h]

theorem collapseWs_space_mem :
    ∀ (l : List Char) (c : Char), c ∈ AJ.collapseWs l → pySpace c = true →
      c = ' ' := by
  intro l
  induction l with
  | nil => intro c hc hs; simp [AJ.collapseWs] at hc
  | cons a t ih =>
    intro c hc hs
    cases t with
    | nil =>
      simp only [AJ.collapseWs, List.mem_singleton] at hc
      subst hc
      by_cases h : pySpace a = true
      · rw [if_pos h]
      · rw [if_neg h] at hs
        exact absurd hs (by simpa using h)
    | cons b r =>
      by_cases h1 : pySpace a = true
      · by_cases h2 : pySpace b = true
        · rw [show AJ.collapseWs (a :: b :: r) = AJ.collapseWs (b :: r) from by
            simp [AJ.collapseWs, h1, h2]] at hc
          exact ih c hc hs
        · have h2f : pySpace b = false := by simpa using h2
          rw [show AJ.collapseWs (a :: b :: r) =
              ' ' :: AJ.collapseWs (b :: r) from by
            simp [AJ.collapseWs, h1, h2f]] at hc
          rcases List.mem_cons.mp hc with rfl | hc2
          · rfl
          · exact ih c hc2 hs
      · have h1f : pySpace a = false := by simpa using h1
        rw [collapseWs_cons_nonspace a (b :: r) h1f] at hc
        rcases List.mem_cons.mp hc with rfl | hc2
        · exact absurd hs (by simp [h1f])
        · exact ih c hc2 hs

theorem collapseWs_chain :
    ∀ l : List Char,
      List.Chain' (fun a b => ¬(pySpace a = true ∧ pySpace b = true))
        (AJ.collapseWs l) := by
  intro l
  induction l with
  | nil => simp [AJ.collapseWs]
  | cons a t ih =>
    cases t with
    | nil => simp [AJ.collapseWs]
    | cons b r =>
      by_cases h1 : pySpace a = true <;> by_cases h2 : pySpace b = true
      · simpa [AJ.collapseWs, h1, h2] using ih
      · have h2f : pySpace b = false := by simpa using h2
        have he : AJ.collapseWs (a :: b :: r) = ' ' :: AJ.collapseWs (b :: r) := by
          simp [AJ.collapseWs, h1, h2f]
        rw [he, collapseWs_cons_nonspace b r h2f]
        refine List.chain'_cons'.mpr ⟨?_, ?_⟩
        · intro y hy
          simp only [List.head?_cons, Option.mem_some_iff] at hy
          rw [← hy]
          simp [h2f]
        · rw [← collapseWs_cons_nonspace b r h2f]
          exact ih
      · have h1f : pySpace a = false := by simpa using h1
        rw [collapseWs_cons_nonspace a (b :: r) h1f]
        refine List.chain'_cons'.mpr ⟨?_, ih⟩
        intro y hy
        simp [h1f]
      · have h1f : pySpace a = false := by simpa using h1
        rw [collapseWs_cons_nonspace a (b :: r) h1f]
        refine List.chain'_cons'.mpr ⟨?_, ih⟩
        intro y hy
        simp [h1f]

theorem pyStrip_getLast_not_space (l : List Char)
    (h : AJ.pyStrip l ≠ []) :
    ¬ pySpace ((AJ.pyStrip l).getLast h) = true :=
  List.rdropWhile_last_not pySpace (l.dropWhile pySpace) h

theorem pyStrip_head_not_space (l : List Char) (h : AJ.pyStrip l ≠ []) :
    pySpace ((AJ.pyStrip l).head h) = false := by
  obtain ⟨t, ht⟩ := List.rdropWhile_prefix pySpace (l.dropWhile pySpace)
  have hX : l.dropWhile pySpace ≠ [] := by
    intro h0
    apply h
    rw [pyStrip_eq, h0]
    rfl
  have e1 : (l.dropWhile pySpace).head? = some ((AJ.pyStrip l).head h) := by
    rw [← show AJ.pyStrip l ++ t = l.dropWhile pySpace from ht,
      List.head?_append_of_ne_nil _ h, List.head?_eq_head h]
  have e2 : (l.dropWhile pySpace).head? =
      some ((l.dropWhile pySpace).head hX) := List.head?_eq_head hX
  have e3 : (l.dropWhile pySpace).head hX = (AJ.pyStrip l).head h :=
    Option.some.inj (e2.symm.trans e1)
  rw [← e3]
  exact List.head_dropWhile_not pySpace l hX

/-- C9 counterexample: `clean_text` of `job_scraper.py` deletes characters
outside its allow-list after collapsing whitespace — in particular the
plus sign used in experience phrases — so it does alter meaningful
punctuation. -/
theorem claim_C9_counterexample :
    JS.clean_text (some "8+ years") = "8 years" ∧
      ("8 years" : String) ≠ "8+ years" := by
  decide

/-- C9 (amended): `normalize_whitespace` of `scrape_actuarial_jobs.py`
(and the textually identical `normalize` of `scrape_company_boards.py`)
satisfies the claimed contract: empty output on `None`/empty input, every
non-whitespace character preserved in order, no two adjacent whitespace
characters, every remaining whitespace character is a single space, and no
leading or trailing whitespace.  `clean_text` of `job_scraper.py`
additionally deletes characters outside `[\w\s\-.,/$()&₹]`, so the
punctuation-preservation part fails for it (see the counterexample). -/
theorem claim_C9 :
    AJ.normalize_whitespace none = "" ∧
      AJ.normalize_whitespace (some "") = "" ∧
      (∀ t : Option String, CB.normalize t = AJ.normalize_whitespace t) ∧
      (∀ s : String,
        (AJ.normalize_whitespace (some s)).data.filter (fun c => !pySpace c) =
          s.data.filter (fun c => !pySpace c)) ∧
      (∀ s : String,
        List.Chain' (fun a b => ¬(pySpace a = true ∧ pySpace b = true))
          (AJ.normalize_whitespace (some s)).data) ∧
      (∀ (s : String) (c : Char),
        c ∈ (AJ.normalize_whitespace (some s)).data → pySpace c = true →
          c = ' ') ∧
      (∀ (s : String) (h : (AJ.normalize_whitespace (some s)).data ≠ []),
        pySpace ((AJ.normalize_whitespace (some s)).data.head h) = false ∧
          ¬ pySpace ((AJ.normalize_whitespace (some s)).data.getLast h) = true) := by
  refine ⟨rfl, rfl, fun t => rfl, ?_, ?_, ?_, ?_⟩
  · intro s
    show (AJ.pyStrip (AJ.collapseWs s.data)).filter (fun c => !pySpace c) = _
    rw [pyStrip_eq, filter_rdropWhile_pySpace, filter_dropWhile_pySpace,
      collapseWs_filter]
  · intro s
    exact List.Chain'.infix (collapseWs_chain s.data)
      (pyStrip_infixOf (AJ.collapseWs s.data))
  · intro s c hc hs
    exact collapseWs_space_mem s.data c
      (List.Sublist.subset
        (List.IsInfix.sublist (pyStrip_infixOf (AJ.collapseWs s.data))) hc) hs
  · intro s h
    exact ⟨pyStrip_head_not_space (AJ.collapseWs s.data) h,
      pyStrip_getLast_not_space (AJ.collapseWs s.data) h⟩

/-- Witness for the conditional parts of C9 at concrete inputs. -/
theorem claim_C9_witness :
    (' ' : Char) = ' ' ∧
      pySpace ((AJ.normalize_whitespace (some " a  b ")).data.head
        (by decide)) = false := by
  constructor
  · exact claim_C9.2.2.2.2.2.1 " a  b " ' ' (by decide) (by decide)
  · exact (claim_C9.2.2.2.2.2.2 " a  b " (by decide)).1

/-! ## Model sanity checks (kernel-evaluated examples) -/

example : AJ.parse_salary "salary 50,000 to 70,000 USD" =
    some { min := some 50000, max := some 70000, currency := "USD" } := by
  decide

example : AJ.infer_experience "senior analyst 8+ years" = some "senior" := by
  decide

example : AJ.infer_experience "requires 3-5 years" = some "mid" := by decide

example : AJ.extract_certs "FSA or ASA required" = ["ASA", "FSA"] := by decide

example : AJ.gen_id "Actuary" "Acme" "Mumbai" "https://x/1" =
    "ActuaryAcmeMumbaihttpsx1" := by decide

example : JS.extract_salary "₹5,00,000 - ₹10,00,000" =
    some { min := 500000, max := 1000000, currency := "INR" } := by decide

example : JS.extract_salary "5-10 Lakhs" =
    some { min := 500000, max := 1000000, currency := "INR" } := by decide

example : JS.extract_salary "₹50000 - ₹100000 per month" =
    some { min := 50000, max := 100000, currency := "INR" } := by decide

example : JS.extract_salary "₹5 Lakh" =
    some { min := 400000, max := 600000, currency := "INR" } := by decide

example : JS.extract_salary "Rs. 5 LPA - 10 LPA" =
    some { min := 500000, max := 1000000, currency := "INR" } := by decide

example : JS.extract_salary "₹5-₹10 LPA" =
    some { min := 500000, max := 1000000, currency := "INR" } := by decide

example : JS.extract_salary "₹40 K - ₹45 K" =
    some { min := 480000, max := 540000, currency := "INR" } := by decide

example : JS.determine_experience_level "Graduate trainee, 0-2 years" "" =
    "entry" := by decide

example : JS.extract_skills "sql and python" = ["SQL", "Python"] := by decide

example : AJ.normalize_whitespace (some "  a \t\n b  ") = "a b" := by decide

set_option maxRecDepth 100000 in
example : md5hex "" = "d41d8cd98f00b204e9800998ecf8427e" := by decide

set_option maxRecDepth 100000 in
example : md5hex "abc" = "900150983cd24fb0d6963f7d28e17f72" := by decide
